import Mathlib

/-!
# TrinTasks — verification of the calendar-parsing / reminder-scheduling core

Shallow embedding of the TrinTasks Chrome extension's parsing and scheduling
logic (`background.js`, `src/ical-parser.js`, exercised by the claims), with
theorems settling the frozen claims.

Conventions of the embedding:
* JavaScript strings are modelled as `List Char` internally (`String` at the
  API); `Option String` models a string-or-null field (`none` = `null`).
* JavaScript numbers appearing here are integers; `Option Int` models an
  integer-or-NaN value (`none` = `NaN`), and the comparison helpers reproduce
  the IEEE comparison semantics for `NaN` (`NaN <= x` is false).
* Host-environment functions (the local-timezone `Date` constructor and the
  `en-US` locale formatters) are abstracted into a `JsEnv` parameter.
-/

namespace TrinTasks

/-! ## JavaScript primitives -/

/-- The whitespace class used by JavaScript `\s`, `trim` and `parseInt`
(ASCII whitespace plus no-break space and BOM; other Unicode space
code points do not occur in the sources' inputs). -/
def isSpaceJS (c : Char) : Bool :=
  c = ' ' || c = '\t' || c = '\n' || c = '\r' || c = '\x0b' || c = '\x0c' ||
  c = ' ' || c = '﻿'

/-- JavaScript word character (`\w` / the complement used by `\b`). -/
def isWordChar (c : Char) : Bool :=
  (('A' ≤ c && c ≤ 'Z') || ('a' ≤ c && c ≤ 'z') || c.isDigit || c = '_')

/-- ASCII letter (what `[A-Z]` matches under the `i` flag). -/
def isAsciiLetter (c : Char) : Bool :=
  ('A' ≤ c && c ≤ 'Z') || ('a' ≤ c && c ≤ 'z')

def digitsToNat (ds : List Char) : Nat :=
  ds.foldl (fun a c => a * 10 + (c.toNat - 48)) 0

/-- JavaScript `parseInt(s, 10)`: skip leading whitespace, optional sign,
longest leading digit run; `none` models the result `NaN` (no digits). -/
def parseIntJS (cs : List Char) : Option Int :=
  let cs := cs.dropWhile isSpaceJS
  match cs with
  | '-' :: rest =>
      let ds := rest.takeWhile Char.isDigit
      if ds.isEmpty then none else some (-(digitsToNat ds : Int))
  | '+' :: rest =>
      let ds := rest.takeWhile Char.isDigit
      if ds.isEmpty then none else some (digitsToNat ds : Int)
  | _ =>
      let ds := cs.takeWhile Char.isDigit
      if ds.isEmpty then none else some (digitsToNat ds : Int)

/-- JavaScript `s.substring(a, b)` for `a ≤ b` (clamped to the length). -/
def subJS (cs : List Char) (a b : Nat) : List Char :=
  (cs.drop a).take (b - a)

/-- JavaScript `s.trim()`. -/
def trimJS (cs : List Char) : List Char :=
  ((cs.dropWhile isSpaceJS).reverse.dropWhile isSpaceJS).reverse

/-- `s.toLowerCase()` restricted to ASCII (all case-insensitive matching in
the sources involves ASCII letters only). -/
def lowerJS (cs : List Char) : List Char := cs.map Char.toLower

/-- Case-insensitive equality of ASCII chars (regex `i` flag). -/
def eqIns (a b : Char) : Bool := a.toLower = b.toLower

/-! ## Timestamp conversion (`ICalDateToTimestamp`, background.js 135–167 =
`ICalParser.iCalDateToTimestamp`, ical-parser.js) -/

/-- Days since 1970-01-01 of the civil date `y-m-d` (month 1-based);
the standard days-from-civil algorithm, modelling ECMAScript `MakeDay`
composed with `Day`. -/
def daysFromCivil (y m d : Int) : Int :=
  let y2 := if m ≤ 2 then y - 1 else y
  let era := y2.fdiv 400
  let yoe := y2 - era * 400
  let mp := if m > 2 then m - 3 else m + 9
  let doy := (153 * mp + 2).fdiv 5 + d - 1
  let doe := yoe * 365 + yoe.fdiv 4 - yoe.fdiv 100 + doy
  era * 146097 + doe - 719468

/-- ECMAScript `Date.UTC(y, m0, d, h, mi, s)` for integer arguments
(`m0` 0-based, rolled over into the year exactly as `MakeDay` does).
The `TimeClip` range cut-off is not modelled: every input exercised by the
claims lies far inside the representable range. -/
def dateUTC (y m0 d h mi s : Int) : Int :=
  let ym := y + m0.fdiv 12
  let mn := m0.emod 12
  (daysFromCivil ym (mn + 1) 1 + (d - 1)) * 86400000 +
    h * 3600000 + mi * 60000 + s * 1000

/-- Host-environment functions the JavaScript uses but that depend on the
machine's timezone / locale. `localTimeMs y m0 d h mi s` models
`new Date(y, m0, d, h, mi, s).getTime()` (local wall-clock constructor);
the three formatters model the `toLocaleDateString` / `toLocaleString`
calls of the parser. They are abstract: no claim constrains their output
beyond the arguments they receive. -/
structure JsEnv where
  localTimeMs : Int → Int → Int → Int → Int → Int → Int
  localeDate : Int → Int → Int → String
  localeDateTime : Int → Int → Int → Int → Int → String
  localeDateTimeUTC : String → String → String → String → String → String → String

/-- `dateTime.substring(i, j) || '0'`. -/
def orZero (l : List Char) : List Char := if l.isEmpty then ['0'] else l

/-- `ICalDateToTimestamp` (background.js 135–167, identical to
`ICalParser.iCalDateToTimestamp`).  Result `none` models `NaN`: when the
digit extraction fails, `parseInt` yields `NaN`, which flows through
`Date.UTC` / `new Date(...)` / `.getTime()` to a `NaN` return value — the
function never throws, and the surrounding `try` never fires. -/
def iCalDateToTimestampL (env : JsEnv) (cs : List Char) : Option Int :=
  if cs.isEmpty then some 0
  else if cs.contains 'T' then
    match parseIntJS (subJS cs 0 4), parseIntJS (subJS cs 4 6),
          parseIntJS (subJS cs 6 8), parseIntJS (orZero (subJS cs 9 11)),
          parseIntJS (orZero (subJS cs 11 13)),
          parseIntJS (orZero (subJS cs 13 15)) with
    | some y, some mo, some d, some h, some mi, some s =>
        if cs.getLast? = some 'Z' then some (dateUTC y (mo - 1) d h mi s)
        else some (env.localTimeMs y (mo - 1) d h mi s)
    | _, _, _, _, _, _ => none
  else if 8 ≤ cs.length then
    match parseIntJS (subJS cs 0 4), parseIntJS (subJS cs 4 6),
          parseIntJS (subJS cs 6 8) with
    | some y, some mo, some d => some (env.localTimeMs y (mo - 1) d 0 0 0)
    | _, _, _ => none
  else some 0

def iCalDateToTimestamp (env : JsEnv) (s : String) : Option Int :=
  iCalDateToTimestampL env s.data

/-- The UTC instant (ms since the epoch) encoded by civil components
`y-mo-d h:mi:s` (month 1-based): the claim's "UTC instant of its encoded
components", written from the spec's words for comparison with the code. -/
def utcInstant (y mo d h mi s : Int) : Int :=
  daysFromCivil y mo d * 86400000 + h * 3600000 + mi * 60000 + s * 1000

/-- A concrete sample environment (local time = UTC, trivial formatters),
used only to instantiate theorems at concrete inputs. -/
def envUTC : JsEnv where
  localTimeMs := dateUTC
  localeDate := fun _ _ _ => ""
  localeDateTime := fun _ _ _ _ _ => ""
  localeDateTimeUTC := fun _ _ _ _ _ _ => ""

example : daysFromCivil 1970 1 1 = 0 := by decide
example : daysFromCivil 1970 1 2 = 1 := by decide
example : daysFromCivil 2024 3 15 = 19797 := by decide

/-- C2 (counterexample): the claim "for every token that fails to parse the
conversion returns timestamp 0" is false on the code: the 8-character token
"aaaaaaaa" fails to parse, but the date-only branch runs `parseInt` on its
substrings, obtains `NaN`, and the function returns `NaN` (modelled `none`),
not `0`. -/
theorem iCalTimestamp_nan_cex :
    iCalDateToTimestamp envUTC "aaaaaaaa" = none ∧
      ¬ iCalDateToTimestamp envUTC "aaaaaaaa" = some 0 := by
  constructor <;> decide

/-- C2 (amended): a token containing `T` and ending in `Z` is mapped to the
UTC instant of its encoded components (`"20240315T140000Z"` ↦ 2024-03-15
14:00:00 UTC); a token without `T` of length ≥ 8 whose components parse is
mapped to local midnight of the encoded date (`"20240315"` ↦ the local
`Date` constructor at 2024-03-15 00:00:00, month 0-based); the function
never throws, and a token that fails to parse yields timestamp 0 when it is
empty or shorter than 8 characters without a `T` (e.g. `"abc"`), but yields
`NaN` (not 0) when digit extraction fails inside the date-time or date-only
branches. -/
theorem iCalTimestamp_conversion :
    (∀ env : JsEnv,
        iCalDateToTimestamp env "20240315T140000Z" =
          some (utcInstant 2024 3 15 14 0 0)) ∧
    (∀ env : JsEnv,
        iCalDateToTimestamp env "20240315" =
          some (env.localTimeMs 2024 2 15 0 0 0)) ∧
    (∀ env : JsEnv, iCalDateToTimestamp env "abc" = some 0) ∧
    (∀ env : JsEnv, ∀ s : String,
        s.data.contains 'T' = false → s.data.length < 8 →
        iCalDateToTimestamp env s = some 0) ∧
    (∀ env : JsEnv, iCalDateToTimestamp env "aaaaaaaa" = none) := by
  refine ⟨fun env => rfl, fun env => rfl, fun env => rfl, ?_, fun env => rfl⟩
  intro env s hT hlen
  unfold iCalDateToTimestamp iCalDateToTimestampL
  by_cases he : s.data.isEmpty = true
  · rw [if_pos he]
  · rw [if_neg he, if_neg (by simpa using hT), if_neg (Nat.not_le.mpr hlen)]

/-- Witness for the hypotheses of `iCalTimestamp_conversion`: the token
`"abcd"` has no `T`, has length 4 < 8, and indeed converts to 0. -/
theorem iCalTimestamp_conversion_witness :
    iCalDateToTimestamp envUTC "abcd" = some 0 :=
  iCalTimestamp_conversion.2.2.2.1 envUTC "abcd" (by decide) (by decide)

/-! ## Assignment classifier (`ICalParser.parseEvent`, lines 285–300) -/

/-- The keyword alternation of ical-parser.js line 289. -/
def assignmentKeywords : List (List Char) :=
  ["due", "assignment", "homework", "test", "quiz", "exam", "project",
   "paper", "lab", "presentation", "read", "watch", "complete", "finish",
   "study"].map String.data

/-- Case-insensitive prefix match; returns the rest on success. -/
def stripPrefixIns : List Char → List Char → Option (List Char)
  | [], cs => some cs
  | _ :: _, [] => none
  | p :: ps, c :: cs => if eqIns p c then stripPrefixIns ps cs else none

/-- Does some keyword of the alternation match at this position, with `\b`
word boundaries on both sides? `prev` is the character before the position. -/
def keywordHere (prev : Option Char) (cs : List Char) : Bool :=
  (match prev with | some c => !isWordChar c | none => true) &&
    assignmentKeywords.any (fun kw =>
      match stripPrefixIns kw cs with
      | some rest =>
          match rest with
          | [] => true
          | c :: _ => !isWordChar c
      | none => false)

def hasKeywordsAux (prev : Option Char) : List Char → Bool
  | [] => false
  | c :: rest => keywordHere prev (c :: rest) || hasKeywordsAux (some c) rest

/-- `/\b(due|assignment|homework|test|quiz|exam|project|paper|lab|presentation|read|watch|complete|finish|study)\b/i.test(title)`
(ical-parser.js 289). -/
def hasKeywords (cs : List Char) : Bool := hasKeywordsAux none cs

/-- The inner character class `[A-Z0-9\s:\/]` under the `i` flag. -/
def inClassBody (c : Char) : Bool :=
  isAsciiLetter c || c.isDigit || isSpaceJS c || c = ':' || c = '/'

def isAlnumAscii (c : Char) : Bool := isAsciiLetter c || c.isDigit

/-- The part `[A-Z][A-Z0-9\s:\/]+-\s*[A-Z0-9]+:` of the class-prefix pattern
(case-insensitive). No quantifier here needs backtracking: each greedy run
is stopped by a character its class excludes, so the maximal run is the only
candidate. -/
def classPrefixBody (cs : List Char) : Bool :=
  match cs with
  | [] => false
  | c :: rest =>
      isAsciiLetter c &&
        (let run := rest.takeWhile inClassBody
         let rest2 := rest.dropWhile inClassBody
         decide (1 ≤ run.length) &&
           (match rest2 with
            | '-' :: rest3 =>
                let rest4 := rest3.dropWhile isSpaceJS
                let sec := rest4.takeWhile isAlnumAscii
                let rest5 := rest4.dropWhile isAlnumAscii
                decide (1 ≤ sec.length) && (rest5.head? = some ':')
            | _ => false))

/-- `/^(?:ADV\.\s+)?[A-Z][A-Z0-9\s:\/]+-\s*[A-Z0-9]+:/i.test(title)`
(ical-parser.js 290), anchored at the start: either the optional
`ADV.`‑plus‑whitespace prefix is consumed first, or the body matches
directly. -/
def hasClassPrefix (cs : List Char) : Bool :=
  (match stripPrefixIns ("adv.").data cs with
   | some rest =>
       let sp := rest.takeWhile isSpaceJS
       decide (1 ≤ sp.length) && classPrefixBody (rest.dropWhile isSpaceJS)
   | none => false) || classPrefixBody cs

/-- The assignment classifier (ical-parser.js 289–291):
`isAssignment = hasKeywords || hasClassPrefix`, a function of the processed
title alone. -/
def classifyTitle (title : String) : Bool :=
  hasKeywords title.data || hasClassPrefix title.data

/-! ### Inline time-of-day extraction (ical-parser.js 296) -/

/-- The common suffix `[ap]\.?m\.?` of both alternatives of the time
pattern, with the backtracking of the first optional dot worked out: the
dot before `m` is consumed only when an `m` follows it; the final optional
dot is taken greedily.  Returns the consumed characters. -/
def ampmTail (cs : List Char) : Option (List Char) :=
  match cs with
  | c :: '.' :: m :: '.' :: _ =>
      if (c = 'a' || c = 'A' || c = 'p' || c = 'P') && (m = 'm' || m = 'M') then
        some [c, '.', m, '.']
      else none
  | c :: '.' :: m :: _ =>
      if (c = 'a' || c = 'A' || c = 'p' || c = 'P') && (m = 'm' || m = 'M') then
        some [c, '.', m]
      else none
  | c :: m :: '.' :: _ =>
      if (c = 'a' || c = 'A' || c = 'p' || c = 'P') && (m = 'm' || m = 'M') then
        some [c, m, '.']
      else none
  | c :: m :: _ =>
      if (c = 'a' || c = 'A' || c = 'p' || c = 'P') && (m = 'm' || m = 'M') then
        some [c, m]
      else none
  | _ => none

/-- First alternative `\d{1,2}:\d{2}\s*[ap]\.?m\.?` anchored at the current
position (`\d{1,2}` greedy, backtracking from two digits to one). -/
def alt1At (cs : List Char) : Option (List Char) :=
  let tryWith : List Char → List Char → Option (List Char) := fun ds rest =>
    match rest with
    | ':' :: d1 :: d2 :: r3 =>
        if d1.isDigit && d2.isDigit then
          let sp := r3.takeWhile isSpaceJS
          match ampmTail (r3.dropWhile isSpaceJS) with
          | some con => some (ds ++ [':', d1, d2] ++ sp ++ con)
          | none => none
        else none
    | _ => none
  match cs with
  | a :: b :: rest =>
      if a.isDigit then
        if b.isDigit then
          (tryWith [a, b] rest).orElse (fun _ => tryWith [a] (b :: rest))
        else tryWith [a] (b :: rest)
      else none
  | _ => none

/-- Second alternative `\d{1,2}\s*[ap]\.?m\.?` anchored at the current
position. -/
def alt2At (cs : List Char) : Option (List Char) :=
  let tryWith : List Char → List Char → Option (List Char) := fun ds rest =>
    let sp := rest.takeWhile isSpaceJS
    match ampmTail (rest.dropWhile isSpaceJS) with
    | some con => some (ds ++ sp ++ con)
    | none => none
  match cs with
  | a :: b :: rest =>
      if a.isDigit then
        if b.isDigit then
          (tryWith [a, b] rest).orElse (fun _ => tryWith [a] (b :: rest))
        else tryWith [a] (b :: rest)
      else none
  | [a] => if a.isDigit then tryWith [a] [] else none
  | [] => none

/-- `title.match(/(\d{1,2}:\d{2}\s*[ap]\.?m\.?|\d{1,2}\s*[ap]\.?m\.?)/i)`
(ical-parser.js 296): leftmost match, first alternative preferred. -/
def timeHintSearch : List Char → Option (List Char)
  | [] => none
  | c :: rest =>
      (alt1At (c :: rest)).orElse (fun _ =>
        (alt2At (c :: rest)).orElse (fun _ => timeHintSearch rest))

/-! ## Text decoding (`ICalParser.decodeText` and the entity passes) -/

def replaceAllGo (pat repl : List Char) : Nat → List Char → List Char
  | 0, cs => cs
  | _, [] => []
  | Nat.succ fuel, c :: rest =>
      if pat.isPrefixOf (c :: rest) && !pat.isEmpty then
        repl ++ replaceAllGo pat repl fuel ((c :: rest).drop pat.length)
      else c :: replaceAllGo pat repl fuel rest

/-- `s.replace(pat, repl)` with a global regex of a literal pattern:
replace every non-overlapping occurrence, left to right. -/
def replaceAllL (pat repl cs : List Char) : List Char :=
  replaceAllGo pat repl cs.length cs

/-- `s.replace(pat, repl)` with a *string* pattern: JavaScript replaces only
the first occurrence. -/
def replaceFirstL (pat repl : List Char) : List Char → List Char
  | [] => []
  | c :: rest =>
      if pat.isPrefixOf (c :: rest) then repl ++ (c :: rest).drop pat.length
      else c :: replaceFirstL pat repl rest

/-- `String.fromCharCode(n)`: `ToUint16` then the UTF-16 code unit.  A lone
surrogate (never produced by the inputs exercised here) is mapped to U+FFFD,
as Lean characters are Unicode scalar values. -/
def jsFromCharCode (n : Nat) : List Char :=
  let u := n % 65536
  if u < 55296 ∨ 57344 ≤ u then [Char.ofNat u] else ['\uFFFD']

/-- `/&#(\d+);/g` replaced by `String.fromCharCode(parseInt(code, 10))`. -/
def decEntGo : Nat → List Char → List Char
  | 0, cs => cs
  | _, [] => []
  | Nat.succ fuel, c :: rest =>
      if c = '&' then
        match rest with
        | '#' :: r2 =>
            let ds := r2.takeWhile Char.isDigit
            let r3 := r2.dropWhile Char.isDigit
            if 1 ≤ ds.length then
              match r3 with
              | ';' :: r4 => jsFromCharCode (digitsToNat ds) ++ decEntGo fuel r4
              | _ => c :: decEntGo fuel rest
            else c :: decEntGo fuel rest
        | _ => c :: decEntGo fuel rest
      else c :: decEntGo fuel rest

def isHexDigitJS (c : Char) : Bool :=
  c.isDigit || ('a' ≤ c && c ≤ 'f') || ('A' ≤ c && c ≤ 'F')

def hexVal (c : Char) : Nat :=
  if c.isDigit then c.toNat - 48
  else if 'a' ≤ c then c.toNat - 87
  else c.toNat - 55

def hexToNat (ds : List Char) : Nat := ds.foldl (fun a c => a * 16 + hexVal c) 0

/-- `/&#x([0-9a-fA-F]+);/g` replaced by
`String.fromCharCode(parseInt(code, 16))`. -/
def hexEntGo : Nat → List Char → List Char
  | 0, cs => cs
  | _, [] => []
  | Nat.succ fuel, c :: rest =>
      if c = '&' then
        match rest with
        | '#' :: 'x' :: r2 =>
            let ds := r2.takeWhile isHexDigitJS
            let r3 := r2.dropWhile isHexDigitJS
            if 1 ≤ ds.length then
              match r3 with
              | ';' :: r4 => jsFromCharCode (hexToNat ds) ++ hexEntGo fuel r4
              | _ => c :: hexEntGo fuel rest
            else c :: hexEntGo fuel rest
        | _ => c :: hexEntGo fuel rest
      else c :: hexEntGo fuel rest

/-- The HTML-entity decoding applied to the raw title (ical-parser.js
265–278): numeric entities, hex entities, then the fixed chain of named
entities in source order. -/
def decodeEntities (cs : List Char) : List Char :=
  let apos : Char := Char.ofNat 39
  let cs := decEntGo cs.length cs
  let cs := hexEntGo cs.length cs
  let cs := replaceAllL ("&amp;").data ("&").data cs
  let cs := replaceAllL ("&lt;").data ("<").data cs
  let cs := replaceAllL ("&gt;").data (">").data cs
  let cs := replaceAllL ("&quot;").data ("\"").data cs
  let cs := replaceAllL ("&#39;").data [apos] cs
  let cs := replaceAllL ("&nbsp;").data (" ").data cs
  let cs := replaceAllL ("&ndash;").data ("–").data cs
  let cs := replaceAllL ("&mdash;").data ("—").data cs
  let cs := replaceAllL ("&ldquo;").data ("\"").data cs
  let cs := replaceAllL ("&rdquo;").data ("\"").data cs
  let cs := replaceAllL ("&lsquo;").data [apos] cs
  replaceAllL ("&rsquo;").data [apos] cs

/-- `/\\[nN]/g → '\n'` as a single left-to-right pass. -/
def escNlGo : Nat → List Char → List Char
  | 0, cs => cs
  | _, [] => []
  | Nat.succ fuel, c :: rest =>
      match c, rest with
      | '\\', 'n' :: r2 => '\n' :: escNlGo fuel r2
      | '\\', 'N' :: r2 => '\n' :: escNlGo fuel r2
      | _, _ => c :: escNlGo fuel rest

/-- `/<[^>]*>/g → ''`: strip HTML tags (an unterminated `<` is kept). -/
def stripTagsGo : Nat → List Char → List Char
  | 0, cs => cs
  | _, [] => []
  | Nat.succ fuel, c :: rest =>
      if c = '<' then
        match rest.dropWhile (fun x => x ≠ '>') with
        | '>' :: r2 => stripTagsGo fuel r2
        | _ => c :: stripTagsGo fuel rest
      else c :: stripTagsGo fuel rest

/-- `/\n{3,}/g → '\n\n'`: collapse runs of three or more newlines to two. -/
def collapseNlGo : Nat → List Char → List Char
  | 0, cs => cs
  | _, [] => []
  | Nat.succ fuel, c :: rest =>
      if c = '\n' then
        let run := (c :: rest).takeWhile (fun x => x = '\n')
        let r2 := (c :: rest).dropWhile (fun x => x = '\n')
        if 3 ≤ run.length then '\n' :: '\n' :: collapseNlGo fuel r2
        else run ++ collapseNlGo fuel r2
      else c :: collapseNlGo fuel rest

/-- `ICalParser.decodeText` (ical-parser.js 580–598): protect `\\`, unescape
`\n`/`\N`/`\r` and punctuation, strip HTML tags, restore backslashes,
collapse newline runs, trim. -/
def decodeText (cs : List Char) : List Char :=
  let ph := '\x00' :: (("BACKSLASH").data ++ ['\x00'])
  let cs := replaceAllL ['\\', '\\'] ph cs
  let cs := escNlGo cs.length cs
  let cs := replaceAllL ['\\', 'r'] ['\r'] cs
  let cs := replaceAllL ['\\', ','] [','] cs
  let cs := replaceAllL ['\\', ';'] [';'] cs
  let cs := replaceAllL ['\\', ':'] [':'] cs
  let cs := stripTagsGo cs.length cs
  let cs := replaceAllL ph ['\\'] cs
  let cs := collapseNlGo cs.length cs
  trimJS cs

/-! ## Field extraction (`ICalParser.parseEvent`) -/

/-- `[A-Z-]+:` (case-sensitive) — the next-property lookahead of the
SUMMARY/DESCRIPTION/LOCATION patterns. -/
def upperRunColon (cs : List Char) : Bool :=
  let isK : Char → Bool := fun c => ('A' ≤ c && c ≤ 'Z') || c = '-'
  decide (1 ≤ (cs.takeWhile isK).length) && ((cs.dropWhile isK).head? = some ':')

/-- The terminator lookahead `(?=\r?\n[A-Z-]+:|$)` of the SUMMARY pattern. -/
def summaryTermOk : List Char → Bool
  | [] => true
  | '\n' :: r => upperRunColon r
  | '\r' :: '\n' :: r => upperRunColon r
  | _ => false

def lazyCapGo (acc : List Char) : List Char → Option (List Char)
  | [] => some acc.reverse
  | c :: r => if summaryTermOk (c :: r) then some acc.reverse else lazyCapGo (c :: acc) r

/-- The lazy dot-all capture `(.+?)` of the SUMMARY pattern: at least one
character, stopping at the first position where the lookahead holds. -/
def lazyCaptureS (cs : List Char) : Option (List Char) :=
  match cs with
  | [] => none
  | c :: r => lazyCapGo [c] r

/-- `/KEY(.+?)(?=\r?\n[A-Z-]+:|$)/s`: first occurrence of `key` from which
the rest of the pattern matches. -/
def searchKeyS (key : List Char) : List Char → Option (List Char)
  | [] => none
  | c :: rest =>
      (if key.isPrefixOf (c :: rest) then lazyCaptureS ((c :: rest).drop key.length)
       else none).orElse (fun _ => searchKeyS key rest)

/-- Not a line terminator for the JavaScript dot (no `s` flag): `.` matches
neither `\n` nor `\r`. -/
def notCRLF (c : Char) : Bool := c ≠ '\r' && c ≠ '\n'

def lineTermOk : List Char → Bool
  | [] => true
  | '\n' :: _ => true
  | '\r' :: '\n' :: _ => true
  | _ => false

/-- `(.+?)(?:\r?\n|$)` without the `s` flag: the value is the maximal run of
non-CR/LF characters (nonempty), provided it is followed by a line break or
the end of the block. -/
def lineCapture (cs : List Char) : Option (List Char) :=
  let run := cs.takeWhile notCRLF
  if decide (1 ≤ run.length) && lineTermOk (cs.dropWhile notCRLF) then some run else none

def tryLit (lit cs : List Char) : Option (List Char) :=
  if lit.isPrefixOf cs then some (cs.drop lit.length) else none

/-- `(?:;TZID=[^:]*)?` — when present, consume `;TZID=` and then every
non-colon character (greedy). -/
def tryTZID (cs : List Char) : Option (List Char) :=
  (tryLit (";TZID=").data cs).map (fun r => r.dropWhile (fun c => c ≠ ':'))

def colonLineCapture (cs : List Char) : Option (List Char) :=
  match cs with
  | ':' :: r => lineCapture r
  | _ => none

/-- `(?:;TZID=[^:]*)?(?:;VALUE=DATE)?:(.+?)(?:\r?\n|$)` (the tail of the
DTSTART pattern), optional groups tried greedily. -/
def afterStartParams (cs : List Char) : Option (List Char) :=
  let afterVD : List Char → Option (List Char) := fun r =>
    ((tryLit (";VALUE=DATE").data r).bind colonLineCapture).orElse
      (fun _ => colonLineCapture r)
  ((tryTZID cs).bind afterVD).orElse (fun _ => afterVD cs)

/-- `(?:;TZID=[^:]*)?:(.+?)(?:\r?\n|$)` (the tail of the DUE pattern). -/
def afterDueParams (cs : List Char) : Option (List Char) :=
  ((tryTZID cs).bind colonLineCapture).orElse (fun _ => colonLineCapture cs)

/-- Unanchored search: first position where `key` occurs and the tail of the
pattern matches after it. -/
def searchLine (key : List Char) (tail : List Char → Option (List Char)) :
    List Char → Option (List Char)
  | [] => none
  | c :: rest =>
      (if key.isPrefixOf (c :: rest) then tail ((c :: rest).drop key.length)
       else none).orElse (fun _ => searchLine key tail rest)

/-- `eventData.match(/(?:DUE|DTDUE)(?:;TZID=[^:]*)?:(.+?)(?:\r?\n|$)/)`
(ical-parser.js 346): unanchored, `DUE` tried before `DTDUE` at each
position. -/
def dueSearch : List Char → Option (List Char)
  | [] => none
  | c :: rest =>
      ((tryLit ("DUE").data (c :: rest)).bind afterDueParams).orElse (fun _ =>
        ((tryLit ("DTDUE").data (c :: rest)).bind afterDueParams).orElse
          (fun _ => dueSearch rest))

/-- `/\r?\n[ \t]/g → ''`: rejoin folded continuation lines. -/
def foldGo : Nat → List Char → List Char
  | 0, cs => cs
  | _, [] => []
  | Nat.succ fuel, c :: rest =>
      match c, rest with
      | '\n', t :: r2 =>
          if t = ' ' || t = '\t' then foldGo fuel r2 else '\n' :: foldGo fuel rest
      | '\r', '\n' :: t :: r2 =>
          if t = ' ' || t = '\t' then foldGo fuel r2 else '\r' :: foldGo fuel rest
      | _, _ => c :: foldGo fuel rest

/-- `title.replace(/\s+\d+$/, '')`: drop a trailing digit run preceded by
whitespace. -/
def dropNumericSuffix (cs : List Char) : List Char :=
  let r := cs.reverse
  let ds := r.takeWhile Char.isDigit
  let r2 := r.dropWhile Char.isDigit
  let sp := r2.takeWhile isSpaceJS
  let r3 := r2.dropWhile isSpaceJS
  if decide (1 ≤ ds.length) && decide (1 ≤ sp.length) then r3.reverse else cs

/-- The title pipeline of `parseEvent` (ical-parser.js 260–283): SUMMARY
capture, fold-removal, entity decoding, `decodeText(trim)`, trailing
numeric-suffix trim, trim; `"Untitled Event"` when SUMMARY is absent. -/
def parseTitleL (ed : List Char) : List Char :=
  match searchKeyS ("SUMMARY:").data ed with
  | some captured =>
      let t := foldGo captured.length captured
      let t := decodeEntities t
      let t := decodeText (trimJS t)
      trimJS (dropNumericSuffix t)
  | none => ("Untitled Event").data

/-! ## Date display formatting -/

/-- `ICalParser.formatDateTime` (ical-parser.js 539–573).  The date-only
branch is a pure string; the date-time branch builds an ISO string from the
substrings and locale-formats it — abstracted into the environment. -/
def formatDateTime (env : JsEnv) (cs : List Char) : Option String :=
  if cs.isEmpty then none
  else if cs.contains 'T' then
    some (env.localeDateTimeUTC ⟨subJS cs 0 4⟩ ⟨subJS cs 4 6⟩ ⟨subJS cs 6 8⟩
      ⟨subJS cs 9 11⟩ ⟨subJS cs 11 13⟩ ⟨subJS cs 13 15⟩)
  else some ⟨subJS cs 0 4 ++ ['-'] ++ subJS cs 4 6 ++ ['-'] ++ subJS cs 6 8⟩

/-- `s.includes(pat)` — substring containment. -/
def containsSub (pat : List Char) : List Char → Bool
  | [] => pat.isEmpty
  | c :: rest => pat.isPrefixOf (c :: rest) || containsSub pat rest

/-- The first match of `/(\d{1,2}):?(\d{2})?/` and the hour/minute numbers
extracted from it (`minutes` defaults to 0 when group 2 is absent). -/
def timeMatch12 : List Char → Option (Int × Int)
  | [] => none
  | c :: rest =>
      if c.isDigit then
        let hr :=
          match rest with
          | d2 :: r => if d2.isDigit then (digitsToNat [c, d2], r) else (digitsToNat [c], d2 :: r)
          | [] => (digitsToNat [c], [])
        let r3 := match hr.2 with | ':' :: r => r | _ => hr.2
        let mm : Nat :=
          match r3 with
          | a :: b :: _ => if a.isDigit && b.isDigit then digitsToNat [a, b] else 0
          | _ => 0
        some ((hr.1 : Int), (mm : Int))
      else timeMatch12 rest

/-- `ICalParser.formatDateTimeWithExtractedTime` (ical-parser.js 481–532):
normalize the time hint (`toLowerCase`, drop whitespace, drop the *first*
dot), detect am/pm by substring, extract hour/minute, convert to 24-hour
time, and locale-format the combined moment.  Every callee is total, so the
`catch` branch of the source is unreachable; a `NaN` date component (never
produced by the callers, which pass digit-only strings) is modelled by the
"Invalid Date" rendering. -/
def formatDateTimeWithExtractedTime (env : JsEnv) (dateStr timeStr : List Char) :
    Option String :=
  if dateStr.isEmpty || dateStr.length < 8 then none
  else
    match parseIntJS (subJS dateStr 0 4), parseIntJS (subJS dateStr 4 6),
          parseIntJS (subJS dateStr 6 8) with
    | some y, some mo, some d =>
        let norm := replaceFirstL ['.'] []
          ((lowerJS timeStr).filter (fun c => !isSpaceJS c))
        let isPM := containsSub ("pm").data norm
        let isAM := containsSub ("am").data norm
        match timeMatch12 norm with
        | some hm =>
            let hours := if isPM && hm.1 ≠ 12 then hm.1 + 12
                         else if isAM && hm.1 = 12 then 0 else hm.1
            some (env.localeDateTime y (mo - 1) d hours hm.2)
        | none => some (env.localeDate y (mo - 1) d)
    | _, _, _ => some "Invalid Date"

/-! ## Record assembly (`ICalParser.parseEvent`) -/

/-- A parsed calendar record.  The purely descriptive pass-through fields of
the source (description, location, end, completed, status, priority,
percentComplete, rrule, organizer, attendees) are omitted: each of them only
writes its own field and influences nothing the claims speak about.
`trinityFormat` is the source's name for the spec's `usedFallbackDueDate`;
`isCompleted` is absent-on-parse (set by the UI layer only). -/
structure Event where
  title : String
  isAssignment : Bool
  extractedTime : Option String
  startRaw : Option String
  startTime : Option String
  dueRaw : Option String
  dueTime : Option String
  uid : Option String
  trinityFormat : Bool
  isCompleted : Bool
deriving DecidableEq, Repr

/-- JavaScript truthiness of a string-or-null value. -/
def truthyOpt : Option String → Bool
  | some s => !s.isEmpty
  | none => false

def optData (o : Option String) : List Char := (o.getD "").data

/-- `event.startRaw.replace(/[^\d]/g, '')`. -/
def digitsOnly (cs : List Char) : List Char := cs.filter Char.isDigit

/-- The due-resolution block of `parseEvent` (ical-parser.js 345–371):
explicit `DUE`/`DTDUE` match used as-is (fallback flag false); otherwise,
for an assignment with a start, the start token becomes the due token, the
display combines it with the extracted time hint when present, and
`trinityFormat` is set. -/
def resolveDue (env : JsEnv) (isA : Bool) (extractedTime startRaw startTime : Option String)
    (du : Option (List Char)) : Option String × Option String × Bool :=
  match du with
  | some v => (some ⟨trimJS v⟩, formatDateTime env (trimJS v), false)
  | none =>
      if isA && truthyOpt startRaw then
        let dueTime :=
          if truthyOpt extractedTime && truthyOpt startRaw then
            formatDateTimeWithExtractedTime env
              (subJS (digitsOnly (optData startRaw)) 0 8) (optData extractedTime)
          else startTime
        (startRaw, dueTime, true)
      else (none, none, false)

/-- `ICalParser.parseEvent` restricted to the fields the claims concern
(title pipeline, classifier, time hint, DTSTART, DUE resolution, UID). -/
def parseEventL (env : JsEnv) (ed : List Char) : Event :=
  let title : String := ⟨parseTitleL ed⟩
  let isAssignment := classifyTitle title
  let extractedTime : Option String :=
    if isAssignment && !title.isEmpty then
      (timeHintSearch title.data).map (fun l => (⟨l⟩ : String))
    else none
  let startRaw : Option String :=
    (searchLine ("DTSTART").data afterStartParams ed).map (fun v => (⟨trimJS v⟩ : String))
  let startTime : Option String :=
    match startRaw with
    | some s => formatDateTime env s.data
    | none => none
  let d := resolveDue env isAssignment extractedTime startRaw startTime (dueSearch ed)
  let uid : Option String :=
    (searchLine ("UID:").data lineCapture ed).map (fun v => (⟨trimJS v⟩ : String))
  { title := title, isAssignment := isAssignment, extractedTime := extractedTime,
    startRaw := startRaw, startTime := startTime,
    dueRaw := d.1, dueTime := d.2.1, uid := uid, trinityFormat := d.2.2,
    isCompleted := false }

/-! ## Feed driver (`ICalParser.parseICalContent`, lines 233–249) -/

def findSub (pat : List Char) : List Char → Option (List Char × List Char)
  | [] => if pat.isEmpty then some ([], []) else none
  | c :: rest =>
      if pat.isPrefixOf (c :: rest) then some ([], (c :: rest).drop pat.length)
      else (findSub pat rest).map (fun p => (c :: p.1, p.2))

/-- `/BEGIN:VEVENT([\s\S]*?)END:VEVENT/g`: successive non-overlapping
matches; the lazy body runs to the *first* following `END:VEVENT`. -/
def extractBlocksGo : Nat → List Char → List (List Char)
  | 0, _ => []
  | Nat.succ fuel, cs =>
      match findSub ("BEGIN:VEVENT").data cs with
      | some p =>
          match findSub ("END:VEVENT").data p.2 with
          | some q => q.1 :: extractBlocksGo fuel q.2
          | none => []
      | none => []

def extractBlocks (cs : List Char) : List (List Char) :=
  extractBlocksGo (cs.length + 1) cs

/-- `ICalParser.parseICalContent`: every matched block is parsed and pushed
(`parseEvent` always returns an object, so the `if (event)` guard always
passes).  Total by construction: the parsing core cannot throw. -/
def parseICalContent (env : JsEnv) (s : String) : List Event :=
  (extractBlocks s.data).map (parseEventL env)

/-! ## Claims about the parser -/

/-- C5: the assignment classifier is a deterministic function of the title
alone (`parseEvent` computes `isAssignment` from the processed title and
nothing else), and its keyword test is case-insensitive and whole-word:
`"Quiz 3"`, `"QUIZ 3"` and `"quiz 3"` all classify as assignments. -/
theorem classifier_deterministic_case_insensitive :
    classifyTitle "Quiz 3" = true ∧ classifyTitle "QUIZ 3" = true ∧
    classifyTitle "quiz 3" = true ∧
    (∀ env : JsEnv, ∀ ed : List Char,
        (parseEventL env ed).isAssignment = classifyTitle (parseEventL env ed).title) := by
  refine ⟨by decide, by decide, by decide, fun env ed => rfl⟩

/-- C10: the class-prefix branch of the classifier is fully case-insensitive:
`"adv. biology - b: lunch menu"` contains no assignment keyword, yet the
class-prefix pattern (written with `[A-Z]` classes but carrying the `i`
flag) matches it, so the title classifies as an assignment. -/
theorem classPrefix_case_insensitive :
    hasKeywords ("adv. biology - b: lunch menu").data = false ∧
    hasClassPrefix ("adv. biology - b: lunch menu").data = true ∧
    classifyTitle "adv. biology - b: lunch menu" = true := by
  refine ⟨by decide, by decide, by decide⟩

/-- The C3 scenario feed: one block with the Trinity-style SUMMARY, a
date-only DTSTART and no DUE property. -/
def trinityFeed : String :=
  "BEGIN:VEVENT\nSUMMARY:ADV. BIOLOGY - B: Lab Report due 11:59 p.m.\nDTSTART:20240510\nEND:VEVENT"

/-- C3: parsing `trinityFeed` yields exactly one record, with
`isAssignment = true`, extracted time hint `"11:59 p.m."`, `dueRaw` equal to
the start token `20240510`, a due display combining that date (year 2024,
0-based month 4, day 10) with the 24-hour time 23:59, and the fallback flag
(`trinityFormat`, the spec's `usedFallbackDueDate`) set. -/
theorem trinity_scenario (env : JsEnv) :
    (parseICalContent env trinityFeed).length = 1 ∧
    ((parseICalContent env trinityFeed).head?).map Event.isAssignment = some true ∧
    ((parseICalContent env trinityFeed).head?).map Event.extractedTime =
      some (some "11:59 p.m.") ∧
    ((parseICalContent env trinityFeed).head?).map Event.dueRaw =
      some (some "20240510") ∧
    ((parseICalContent env trinityFeed).head?).map Event.startRaw =
      some (some "20240510") ∧
    ((parseICalContent env trinityFeed).head?).map Event.dueTime =
      some (some (env.localeDateTime 2024 4 10 23 59)) ∧
    ((parseICalContent env trinityFeed).head?).map Event.trinityFormat = some true := by
  refine ⟨rfl, rfl, rfl, rfl, rfl, rfl, rfl⟩

/-- C4 (counterexample): a block whose title text contains `DUE:` hijacks
the unanchored DUE pattern, so a block that *does* contain an explicit
`DUE` property can still get its `dueRaw` from the title instead of the
property: here `dueRaw = "soon"`, not the property value `"20240101"`. -/
def dueHijackBlock : List Char := ("SUMMARY:HW DUE: soon\nDUE:20240101\n").data

theorem due_asis_cex :
    (parseEventL envUTC dueHijackBlock).dueRaw = some "soon" ∧
    ¬ (parseEventL envUTC dueHijackBlock).dueRaw = some "20240101" := by
  refine ⟨by decide, by decide⟩

/-- C4 (amended): whenever the DUE/DTDUE pattern matches anywhere in the
block — in particular whenever the block contains an explicit `DUE`/`DTDUE`
property line and no earlier text (e.g. in the title) also matches the
unanchored pattern, in which case the captured value is that property's
value as-is — `dueRaw` is the trimmed captured value and the fallback flag
(`usedFallbackDueDate` / `trinityFormat`) is false, regardless of the
title's content. -/
theorem due_explicit_no_fallback (env : JsEnv) (ed v : List Char)
    (h : dueSearch ed = some v) :
    (parseEventL env ed).dueRaw = some ⟨trimJS v⟩ ∧
    (parseEventL env ed).trinityFormat = false := by
  simp [parseEventL, resolveDue, h]

/-- Witness for `due_explicit_no_fallback`: a block holding only an explicit
`DUE` property, whose value is taken as-is with the fallback flag false. -/
theorem due_explicit_no_fallback_witness :
    (parseEventL envUTC ("DUE:20240101\n").data).dueRaw = some "20240101" ∧
    (parseEventL envUTC ("DUE:20240101\n").data).trinityFormat = false := by
  have h := due_explicit_no_fallback envUTC ("DUE:20240101\n").data
    ("20240101").data (by decide)
  exact h

/-- C9: the parsing core is total by construction (no exception can
propagate: every operation of the embedding is a total function), and a
feed with zero matching event blocks — in particular the empty string —
returns the empty record list, not an error. -/
theorem parse_empty_feed :
    (∀ env : JsEnv, ∀ s : String,
        extractBlocks s.data = [] → parseICalContent env s = []) ∧
    (∀ env : JsEnv, parseICalContent env "" = []) := by
  constructor
  · intro env s h
    simp [parseICalContent, h]
  · intro env
    rfl

/-- Witness for `parse_empty_feed`: a nonempty feed with no event block
parses to the empty list. -/
theorem parse_empty_feed_witness :
    parseICalContent envUTC "BEGIN:VCALENDAR\r\nVERSION:2.0\r\nEND:VCALENDAR" = [] :=
  parse_empty_feed.1 envUTC "BEGIN:VCALENDAR\r\nVERSION:2.0\r\nEND:VCALENDAR" (by decide)

/-! ## Reminder scheduling (`background.js`) -/

/-- The value stored in the persisted `reminders` map
(background.js 103–109 / 119–125). -/
structure ReminderEntry where
  eventId : String
  title : String
  message : String
  dueTime : Option String
  intervalHours : Int
deriving DecidableEq, Repr

/-- Truthiness of `reminders[reminderId]` (entry objects are truthy). -/
def remHas (m : List (String × ReminderEntry)) (k : String) : Bool :=
  m.any (fun p => p.1 = k)

/-- Truthiness of a key lookup in a map whose values are truthy
(`reminderHistory[id]`, `completedAssignments[id]`). -/
def histHas (h : List String) (k : String) : Bool :=
  h.any (fun x => x = k)

/-- The state threaded through one run of the `checkUpcomingAssignments`
handler: the two persisted maps plus the alarm creations it performs —
`toFireNow` collects the `delayInMinutes: 0.1` creations of the
already-past branch, `toScheduleFuture` the future schedulings with their
delay (in milliseconds: `delayInMinutes × 60000`; `none` models a `NaN`
delay). -/
structure SchedState where
  reminders : List (String × ReminderEntry)
  reminderHistory : List String
  toFireNow : List (String × ReminderEntry)
  toScheduleFuture : List (String × ReminderEntry × Option Int)
deriving DecidableEq, Repr

/-- `data.reminderSettings || { enabled: true, intervals: [24, 16, 4, 1] }`;
`intervals = none` models a missing or non-array field. -/
structure ReminderSettings where
  enabled : Bool
  intervals : Option (List Int)
deriving DecidableEq, Repr

/-- background.js 76–78: use `settings.intervals` when it is a nonempty
array, else the default `[24, 16, 4, 1]`. -/
def effectiveIntervals (s : ReminderSettings) : List Int :=
  match s.intervals with
  | some l => if 0 < l.length then l else [24, 16, 4, 1]
  | none => [24, 16, 4, 1]

/-- `x <= b` under IEEE semantics when `x` may be `NaN` (`none`):
`NaN <= b` is false. -/
def jsLe (a : Option Int) (b : Int) : Bool :=
  match a with
  | some x => decide (x ≤ b)
  | none => false

/-- `` `reminder_${eventId}_${hrs}h` `` (background.js 101/116). -/
def reminderIdOf (eventId : String) (hrs : Int) : String :=
  "reminder_" ++ eventId ++ "_" ++ toString hrs ++ "h"

/-- The body of `intervals.forEach(async (hrs) => …)`
(background.js 96–127): fire-now branch when the target time has passed
(guarded only by history; the id is recorded in history at scheduling
time), future branch otherwise (guarded by both maps; the delay is
`targetTime - now` clamped below by the 0.1-minute minimum = 6000 ms). -/
def stepInterval (now : Int) (eventId title : String) (dueTime : Option String)
    (dueTs : Option Int) (σ : SchedState) (hrs : Int) : SchedState :=
  let intervalMs := hrs * 60 * 60 * 1000
  let targetTime := dueTs.map (fun t => t - intervalMs)
  let reminderId := reminderIdOf eventId hrs
  let entry : ReminderEntry :=
    ⟨eventId, title, title ++ " is due in " ++ toString hrs ++ " hours!", dueTime, hrs⟩
  if jsLe targetTime now then
    if histHas σ.reminderHistory reminderId then σ
    else { σ with reminders := (reminderId, entry) :: σ.reminders,
                  reminderHistory := reminderId :: σ.reminderHistory,
                  toFireNow := σ.toFireNow ++ [(reminderId, entry)] }
  else
    if remHas σ.reminders reminderId || histHas σ.reminderHistory reminderId then σ
    else
      let delayMs := targetTime.map (fun t => max (t - now) 6000)
      { σ with reminders := (reminderId, entry) :: σ.reminders,
               toScheduleFuture := σ.toScheduleFuture ++ [(reminderId, entry, delayMs)] }

/-- Truthy-or: `a || b` on string-or-null values. -/
def jsOrOpt (a b : Option String) : Option String := if truthyOpt a then a else b

/-- Template-literal rendering of a string-or-null value (`${null}` is
`"null"`; the parser always writes `null`, never `undefined`, into the raw
fields). -/
def tmplStr (o : Option String) : String := o.getD "null"

/-- `event.uid || `${event.title}_${event.dueRaw || event.startRaw}``
(background.js 84). -/
def eventIdOf (e : Event) : String :=
  if truthyOpt e.uid then e.uid.getD ""
  else e.title ++ "_" ++ tmplStr (jsOrOpt e.dueRaw e.startRaw)

/-- `ICalDateToTimestamp(event.dueRaw || event.startRaw)`: the function
returns 0 on a null/empty argument. -/
def tsOfToken (env : JsEnv) (o : Option String) : Option Int :=
  match o with
  | some s => iCalDateToTimestamp env s
  | none => some 0

/-- The body of `events.forEach(async (event) => …)` (background.js 80–128):
skip non-assignments, completed flags/ids and overdue records (a `NaN`
due-timestamp passes the `timeUntilDue <= 0` check, false for `NaN`), then
process every configured interval. -/
def stepEvent (env : JsEnv) (now : Int) (completed : List String)
    (intervals : List Int) (σ : SchedState) (e : Event) : SchedState :=
  if !e.isAssignment || e.isCompleted then σ
  else
    let eventId := eventIdOf e
    if histHas completed eventId then σ
    else
      let dueTs := tsOfToken env (jsOrOpt e.dueRaw e.startRaw)
      let timeUntilDue := dueTs.map (fun t => t - now)
      if jsLe timeUntilDue 0 then σ
      else intervals.foldl (stepInterval now eventId e.title e.dueTime dueTs) σ

/-- The `checkUpcomingAssignments` handler (background.js 64–132) as a pure
function of its storage reads: disabled settings short-circuit with no
change; otherwise every event is processed in order against the shared
mutable maps. -/
def computeReminders (env : JsEnv) (events : List Event) (completed : List String)
    (settings : ReminderSettings) (reminders0 : List (String × ReminderEntry))
    (history0 : List String) (now : Int) : SchedState :=
  if !settings.enabled then ⟨reminders0, history0, [], []⟩
  else events.foldl (stepEvent env now completed (effectiveIntervals settings))
    ⟨reminders0, history0, [], []⟩

/-! ## Notification handlers (`background.js` 2–57) -/

structure JsNotification where
  id : String
  title : String
  message : String
deriving DecidableEq, Repr

/-- The `reminder_` alarm listener (background.js 2–33): look the alarm name
up in the persisted reminders map; when present, create the notification,
record the id in `reminderHistory` and delete the entry; when absent, do
nothing at all. -/
def fireAlarm (alarmName : String) (reminders : List (String × ReminderEntry))
    (history : List String) :
    Option JsNotification × List (String × ReminderEntry) × List String :=
  if ("reminder_").data.isPrefixOf alarmName.data then
    match reminders.find? (fun p => p.1 = alarmName) with
    | some p =>
        (some ⟨alarmName, "📚 Assignment Reminder", p.2.message⟩,
         reminders.filter (fun q => q.1 ≠ alarmName), alarmName :: history)
    | none => (none, reminders, history)
  else (none, reminders, history)

/-- Button 0, `Mark Complete` (background.js 38–50): the stored key is
`notificationId.replace('reminder_', '')` — the `reminder_` prefix is
removed but the trailing `_${hrs}h` suffix of the reminder id is kept.
Only `completedAssignments` is touched: the reminders map and the
reminder history are not read or written. -/
def markComplete (notificationId : String) (completed : List String) : List String :=
  (⟨replaceFirstL ("reminder_").data [] notificationId.data⟩ : String) :: completed

/-- Button 1, `Snooze 1 hour` (background.js 51–55): re-create the alarm
under the same name with a 60-minute delay; nothing else changes. -/
def snoozeAlarm (notificationId : String) : String × Int :=
  (notificationId, 60)

/-! ## Claims about the scheduler -/

/-- The C6 scenario record: an uncompleted assignment due at
2024-03-15T14:00:00Z (a UTC token, so the timestamp is
environment-independent). -/
def essayEvent : Event :=
  { title := "Essay", isAssignment := true, extractedTime := none,
    startRaw := none, startTime := none,
    dueRaw := some "20240315T140000Z", dueTime := some "Mar 15, 2024",
    uid := some "a1", trinityFormat := false, isCompleted := false }

/-- `now` exactly 20 hours before the due moment. -/
def nowC6 : Int := dateUTC 2024 2 15 14 0 0 - 72000000

def essayEntry (hrs : Int) : ReminderEntry :=
  ⟨"a1", "Essay", "Essay is due in " ++ toString hrs ++ " hours!",
   some "Mar 15, 2024", hrs⟩

/-- C6: with `now = due − 20h`, intervals `[24,16,4,1]` and empty persisted
state, the 24-hour reminder's target time has passed, so it is fired now
(and recorded in history at scheduling time), while the 16-, 4- and 1-hour
reminders are scheduled for the future with strictly positive delays of
exactly `targetTime − now` (4 h, 16 h and 19 h in milliseconds — all above
the 6000 ms clamp). -/
theorem reminder_20h_scenario (env : JsEnv) :
    (computeReminders env [essayEvent] [] ⟨true, some [24, 16, 4, 1]⟩ [] [] nowC6).toFireNow =
      [("reminder_a1_24h", essayEntry 24)] ∧
    (computeReminders env [essayEvent] [] ⟨true, some [24, 16, 4, 1]⟩ [] [] nowC6).toScheduleFuture =
      [("reminder_a1_16h", essayEntry 16, some 14400000),
       ("reminder_a1_4h", essayEntry 4, some 57600000),
       ("reminder_a1_1h", essayEntry 1, some 68400000)] ∧
    (computeReminders env [essayEvent] [] ⟨true, some [24, 16, 4, 1]⟩ [] [] nowC6).reminderHistory =
      ["reminder_a1_24h"] := by
  refine ⟨rfl, rfl, rfl⟩

/-- The C7/C8 scenario record: due at 2099-01-01T12:00:00Z, uid `uid123`. -/
def uid123Event : Event :=
  { title := "Essay", isAssignment := true, extractedTime := none,
    startRaw := none, startTime := none,
    dueRaw := some "20990101T120000Z", dueTime := some "Jan 1, 2099",
    uid := some "uid123", trinityFormat := false, isCompleted := false }

/-- `now` 48 hours before that due moment (all intervals in the future). -/
def nowC7 : Int := dateUTC 2099 0 1 12 0 0 - 172800000

def uid123EntryH (hrs : Int) : ReminderEntry :=
  ⟨"uid123", "Essay", "Essay is due in " ++ toString hrs ++ " hours!",
   some "Jan 1, 2099", hrs⟩

/-- C7 (code bug): `Mark Complete` on the notification
`reminder_uid123_24h` stores the key `"uid123_24h"` — the record's identity
`"uid123"` with the interval suffix still attached — so the next reminder
computation does **not** skip the record (it schedules all four intervals
again), whereas completing under the record's true identity would skip it.
The handler touches only `completedAssignments`, so no entry of the
reminder history is erased — but the claimed suppression never happens. -/
theorem markComplete_wrong_identity :
    markComplete "reminder_uid123_24h" [] = ["uid123_24h"] ∧
    eventIdOf uid123Event = "uid123" ∧
    ("uid123_24h" = "uid123" → False) ∧
    (computeReminders envUTC [uid123Event] (markComplete "reminder_uid123_24h" [])
        ⟨true, none⟩ [] [] nowC7).toScheduleFuture =
      [("reminder_uid123_24h", uid123EntryH 24, some 86400000),
       ("reminder_uid123_16h", uid123EntryH 16, some 115200000),
       ("reminder_uid123_4h", uid123EntryH 4, some 158400000),
       ("reminder_uid123_1h", uid123EntryH 1, some 169200000)] ∧
    (computeReminders envUTC [uid123Event] ["uid123"]
        ⟨true, none⟩ [] [] nowC7).toScheduleFuture = [] ∧
    (computeReminders envUTC [uid123Event] ["uid123"]
        ⟨true, none⟩ [] [] nowC7).toFireNow = [] := by
  refine ⟨rfl, rfl, by decide, rfl, rfl, rfl⟩

/-- C8 (code bug): firing `reminder_uid123_24h` creates its notification,
deletes the map entry and records the id in history; `Snooze 1 hour`
re-creates the alarm under the same name with a 60-minute delay — but when
that alarm fires, the reminders map no longer contains the id, so the
listener's `if (reminder)` guard fails and **no** notification is created
(and the periodic scheduler cannot repopulate the entry either, because the
id is in the history). -/
theorem snooze_never_refires :
    (fireAlarm "reminder_uid123_24h" [("reminder_uid123_24h", uid123EntryH 24)] []).1 =
      some ⟨"reminder_uid123_24h", "📚 Assignment Reminder", "Essay is due in 24 hours!"⟩ ∧
    (fireAlarm "reminder_uid123_24h" [("reminder_uid123_24h", uid123EntryH 24)] []).2.1 = [] ∧
    (fireAlarm "reminder_uid123_24h" [("reminder_uid123_24h", uid123EntryH 24)] []).2.2 =
      ["reminder_uid123_24h"] ∧
    snoozeAlarm "reminder_uid123_24h" = ("reminder_uid123_24h", 60) ∧
    (fireAlarm "reminder_uid123_24h" [] ["reminder_uid123_24h"]).1 = none ∧
    (computeReminders envUTC [uid123Event] [] ⟨true, none⟩ []
        ["reminder_uid123_24h", "reminder_uid123_16h", "reminder_uid123_4h",
         "reminder_uid123_1h"] nowC7).reminders = [] := by
  refine ⟨rfl, rfl, rfl, rfl, rfl, rfl⟩

/-! ### C1: dedup / idempotence of the reminder computation

The decision taken by `stepInterval` for a `(record, interval)` pair depends
on the shared maps only through key membership, and both maps only grow
during a run; so every insertion performed by a first run makes the same
pair a no-op in a second run over the final maps. -/

theorem remHas_cons (p : String × ReminderEntry) (m : List (String × ReminderEntry))
    (k : String) : remHas (p :: m) k = (decide (p.1 = k) || remHas m k) := rfl

theorem histHas_cons (a : String) (l : List String) (k : String) :
    histHas (a :: l) k = (decide (a = k) || histHas l k) := rfl

theorem stepInterval_mono (now : Int) (eid title : String) (dt : Option String)
    (ts : Option Int) (sg : SchedState) (hrs : Int) :
    (forall k, remHas sg.reminders k = true ->
        remHas (stepInterval now eid title dt ts sg hrs).reminders k = true) /\
    (forall k, histHas sg.reminderHistory k = true ->
        histHas (stepInterval now eid title dt ts sg hrs).reminderHistory k = true) := by
  unfold stepInterval
  dsimp only
  split_ifs with h1 h2 h3
  · exact ⟨fun k h => h, fun k h => h⟩
  · refine ⟨fun k h => ?_, fun k h => ?_⟩
    · rw [remHas_cons, h, Bool.or_true]
    · rw [histHas_cons, h, Bool.or_true]
  · exact ⟨fun k h => h, fun k h => h⟩
  · refine ⟨fun k h => ?_, fun k h => ?_⟩
    · rw [remHas_cons, h, Bool.or_true]
    · exact h

theorem foldIntervals_mono (now : Int) (eid title : String) (dt : Option String)
    (ts : Option Int) (ints : List Int) :
    ∀ sg : SchedState,
      (∀ k, remHas sg.reminders k = true →
          remHas ((ints.foldl (stepInterval now eid title dt ts) sg)).reminders k = true) ∧
      (∀ k, histHas sg.reminderHistory k = true →
          histHas ((ints.foldl (stepInterval now eid title dt ts) sg)).reminderHistory k = true) := by
  induction ints with
  | nil => exact fun sg => ⟨fun k h => h, fun k h => h⟩
  | cons hrs rest ih =>
      intro sg
      simp only [List.foldl_cons]
      refine ⟨fun k h => ?_, fun k h => ?_⟩
      · exact (ih _).1 k ((stepInterval_mono now eid title dt ts sg hrs).1 k h)
      · exact (ih _).2 k ((stepInterval_mono now eid title dt ts sg hrs).2 k h)

theorem stepInterval_absorb (now : Int) (eid title : String) (dt : Option String)
    (ts : Option Int) (sg : SchedState) (hrs : Int)
    (R : List (String × ReminderEntry)) (H : List String)
    (f : List (String × ReminderEntry)) (s : List (String × ReminderEntry × Option Int))
    (hR : ∀ k, remHas (stepInterval now eid title dt ts sg hrs).reminders k = true →
        remHas R k = true)
    (hH : ∀ k, histHas (stepInterval now eid title dt ts sg hrs).reminderHistory k = true →
        histHas H k = true) :
    stepInterval now eid title dt ts ⟨R, H, f, s⟩ hrs = ⟨R, H, f, s⟩ := by
  by_cases hj : jsLe (Option.map (fun t => t - hrs * 60 * 60 * 1000) ts) now = true
  · have hid : histHas H (reminderIdOf eid hrs) = true := by
      apply hH
      by_cases hh : histHas sg.reminderHistory (reminderIdOf eid hrs) = true
      · simp [stepInterval, hj, hh]
      · simp [stepInterval, hj, hh, histHas_cons]
    simp [stepInterval, hj, hid]
  · have hid : (remHas R (reminderIdOf eid hrs) || histHas H (reminderIdOf eid hrs)) = true := by
      by_cases hc : (remHas sg.reminders (reminderIdOf eid hrs) ||
          histHas sg.reminderHistory (reminderIdOf eid hrs)) = true
      · rcases (Bool.or_eq_true _ _).mp hc with h | h
        · have hmem : remHas (stepInterval now eid title dt ts sg hrs).reminders
              (reminderIdOf eid hrs) = true := by
            simpa [stepInterval, hj, hc] using h
          exact (Bool.or_eq_true _ _).mpr (Or.inl (hR _ hmem))
        · have hmem : histHas (stepInterval now eid title dt ts sg hrs).reminderHistory
              (reminderIdOf eid hrs) = true := by
            simpa [stepInterval, hj, hc] using h
          exact (Bool.or_eq_true _ _).mpr (Or.inr (hH _ hmem))
      · have hmem : remHas (stepInterval now eid title dt ts sg hrs).reminders
            (reminderIdOf eid hrs) = true := by
          simp [stepInterval, hj, hc, remHas_cons]
        exact (Bool.or_eq_true _ _).mpr (Or.inl (hR _ hmem))
    simp [stepInterval, hj, hid]

theorem foldIntervals_absorb (now : Int) (eid title : String) (dt : Option String)
    (ts : Option Int) (ints : List Int) :
    ∀ (sg : SchedState) (R : List (String × ReminderEntry)) (H : List String)
      (f : List (String × ReminderEntry)) (s : List (String × ReminderEntry × Option Int)),
      (∀ k, remHas ((ints.foldl (stepInterval now eid title dt ts) sg)).reminders k = true →
          remHas R k = true) →
      (∀ k, histHas ((ints.foldl (stepInterval now eid title dt ts) sg)).reminderHistory k = true →
          histHas H k = true) →
      ints.foldl (stepInterval now eid title dt ts) ⟨R, H, f, s⟩ = ⟨R, H, f, s⟩ := by
  induction ints with
  | nil => intro sg R H f s _ _; rfl
  | cons hrs rest ih =>
      intro sg R H f s hR hH
      simp only [List.foldl_cons] at hR hH ⊢
      have habs : stepInterval now eid title dt ts ⟨R, H, f, s⟩ hrs = ⟨R, H, f, s⟩ := by
        apply stepInterval_absorb now eid title dt ts sg hrs
        · intro k hk
          exact hR k ((foldIntervals_mono now eid title dt ts rest _).1 k hk)
        · intro k hk
          exact hH k ((foldIntervals_mono now eid title dt ts rest _).2 k hk)
      rw [habs]
      exact ih (stepInterval now eid title dt ts sg hrs) R H f s hR hH

theorem stepInterval_fresh (now : Int) (eid title : String) (dt : Option String)
    (ts : Option Int) (sg : SchedState) (hrs : Int) :
    (∀ p ∈ (stepInterval now eid title dt ts sg hrs).toFireNow,
        p ∈ sg.toFireNow ∨ histHas sg.reminderHistory p.1 = false) ∧
    (∀ q ∈ (stepInterval now eid title dt ts sg hrs).toScheduleFuture,
        q ∈ sg.toScheduleFuture ∨ remHas sg.reminders q.1 = false) := by
  unfold stepInterval; dsimp only
  split_ifs with h1 h2 h3
  · exact ⟨fun p hp => Or.inl hp, fun q hq => Or.inl hq⟩
  · constructor
    · intro p hp
      rcases List.mem_append.mp hp with h | h
      · exact Or.inl h
      · have hp1 := List.mem_singleton.mp h
        rw [hp1]
        refine Or.inr ?_
        simpa using h2
    · intro q hq
      exact Or.inl hq
  · exact ⟨fun p hp => Or.inl hp, fun q hq => Or.inl hq⟩
  · constructor
    · intro p hp
      exact Or.inl hp
    · intro q hq
      rcases List.mem_append.mp hq with h | h
      · exact Or.inl h
      · have hq1 := List.mem_singleton.mp h
        rw [hq1]
        refine Or.inr ?_
        simp at h3
        exact h3.1

theorem foldIntervals_fresh (now : Int) (eid title : String) (dt : Option String)
    (ts : Option Int) (H0 : List String) (R0 : List (String × ReminderEntry))
    (ints : List Int) :
    ∀ sg : SchedState,
      (∀ k, histHas H0 k = true → histHas sg.reminderHistory k = true) →
      (∀ k, remHas R0 k = true → remHas sg.reminders k = true) →
      (∀ p ∈ (ints.foldl (stepInterval now eid title dt ts) sg).toFireNow,
          p ∈ sg.toFireNow ∨ histHas H0 p.1 = false) ∧
      (∀ q ∈ (ints.foldl (stepInterval now eid title dt ts) sg).toScheduleFuture,
          q ∈ sg.toScheduleFuture ∨ remHas R0 q.1 = false) := by
  induction ints with
  | nil => exact fun sg _ _ => ⟨fun p hp => Or.inl hp, fun q hq => Or.inl hq⟩
  | cons hrs rest ih =>
      intro sg hbH hbR
      simp only [List.foldl_cons]
      obtain ⟨ih1, ih2⟩ := ih (stepInterval now eid title dt ts sg hrs)
        (fun k h => (stepInterval_mono now eid title dt ts sg hrs).2 k (hbH k h))
        (fun k h => (stepInterval_mono now eid title dt ts sg hrs).1 k (hbR k h))
      constructor
      · intro p hp
        rcases ih1 p hp with h | h
        · rcases (stepInterval_fresh now eid title dt ts sg hrs).1 p h with h2 | h2
          · exact Or.inl h2
          · cases hH0 : histHas H0 p.1 with
            | false => exact Or.inr rfl
            | true => exact absurd (hbH _ hH0) (by simp [h2])
        · exact Or.inr h
      · intro q hq
        rcases ih2 q hq with h | h
        · rcases (stepInterval_fresh now eid title dt ts sg hrs).2 q h with h2 | h2
          · exact Or.inl h2
          · cases hR0 : remHas R0 q.1 with
            | false => exact Or.inr rfl
            | true => exact absurd (hbR _ hR0) (by simp [h2])
        · exact Or.inr h


theorem stepEvent_mono (env : JsEnv) (now : Int) (completed : List String)
    (ints : List Int) (sg : SchedState) (e : Event) :
    (∀ k, remHas sg.reminders k = true →
        remHas (stepEvent env now completed ints sg e).reminders k = true) ∧
    (∀ k, histHas sg.reminderHistory k = true →
        histHas (stepEvent env now completed ints sg e).reminderHistory k = true) := by
  unfold stepEvent; dsimp only
  split_ifs with h1 h2 h3
  · exact ⟨fun k h => h, fun k h => h⟩
  · exact ⟨fun k h => h, fun k h => h⟩
  · exact ⟨fun k h => h, fun k h => h⟩
  · exact foldIntervals_mono now (eventIdOf e) e.title e.dueTime
      (tsOfToken env (jsOrOpt e.dueRaw e.startRaw)) ints sg

theorem stepEvent_absorb (env : JsEnv) (now : Int) (completed : List String)
    (ints : List Int) (sg : SchedState) (e : Event)
    (R : List (String × ReminderEntry)) (H : List String)
    (f : List (String × ReminderEntry)) (s : List (String × ReminderEntry × Option Int))
    (hR : ∀ k, remHas (stepEvent env now completed ints sg e).reminders k = true →
        remHas R k = true)
    (hH : ∀ k, histHas (stepEvent env now completed ints sg e).reminderHistory k = true →
        histHas H k = true) :
    stepEvent env now completed ints ⟨R, H, f, s⟩ e = ⟨R, H, f, s⟩ := by
  unfold stepEvent at hR hH ⊢
  dsimp only at hR hH ⊢
  split_ifs at hR hH ⊢ with h1 h2 h3
  · rfl
  · rfl
  · rfl
  · exact foldIntervals_absorb now (eventIdOf e) e.title e.dueTime
      (tsOfToken env (jsOrOpt e.dueRaw e.startRaw)) ints sg R H f s hR hH

theorem stepEvent_fresh (env : JsEnv) (now : Int) (completed : List String)
    (ints : List Int) (H0 : List String) (R0 : List (String × ReminderEntry))
    (sg : SchedState) (e : Event)
    (hbH : ∀ k, histHas H0 k = true → histHas sg.reminderHistory k = true)
    (hbR : ∀ k, remHas R0 k = true → remHas sg.reminders k = true) :
    (∀ p ∈ (stepEvent env now completed ints sg e).toFireNow,
        p ∈ sg.toFireNow ∨ histHas H0 p.1 = false) ∧
    (∀ q ∈ (stepEvent env now completed ints sg e).toScheduleFuture,
        q ∈ sg.toScheduleFuture ∨ remHas R0 q.1 = false) := by
  unfold stepEvent; dsimp only
  split_ifs with h1 h2 h3
  · exact ⟨fun p hp => Or.inl hp, fun q hq => Or.inl hq⟩
  · exact ⟨fun p hp => Or.inl hp, fun q hq => Or.inl hq⟩
  · exact ⟨fun p hp => Or.inl hp, fun q hq => Or.inl hq⟩
  · exact foldIntervals_fresh now (eventIdOf e) e.title e.dueTime
      (tsOfToken env (jsOrOpt e.dueRaw e.startRaw)) H0 R0 ints sg hbH hbR

theorem foldEvents_mono (env : JsEnv) (now : Int) (completed : List String)
    (ints : List Int) (events : List Event) :
    ∀ sg : SchedState,
      (∀ k, remHas sg.reminders k = true →
          remHas ((events.foldl (stepEvent env now completed ints) sg)).reminders k = true) ∧
      (∀ k, histHas sg.reminderHistory k = true →
          histHas ((events.foldl (stepEvent env now completed ints) sg)).reminderHistory k = true) := by
  induction events with
  | nil => exact fun sg => ⟨fun k h => h, fun k h => h⟩
  | cons e rest ih =>
      intro sg
      simp only [List.foldl_cons]
      refine ⟨fun k h => ?_, fun k h => ?_⟩
      · exact (ih _).1 k ((stepEvent_mono env now completed ints sg e).1 k h)
      · exact (ih _).2 k ((stepEvent_mono env now completed ints sg e).2 k h)

theorem foldEvents_absorb (env : JsEnv) (now : Int) (completed : List String)
    (ints : List Int) (events : List Event) :
    ∀ (sg : SchedState) (R : List (String × ReminderEntry)) (H : List String)
      (f : List (String × ReminderEntry)) (s : List (String × ReminderEntry × Option Int)),
      (∀ k, remHas ((events.foldl (stepEvent env now completed ints) sg)).reminders k = true →
          remHas R k = true) →
      (∀ k, histHas ((events.foldl (stepEvent env now completed ints) sg)).reminderHistory k = true →
          histHas H k = true) →
      events.foldl (stepEvent env now completed ints) ⟨R, H, f, s⟩ = ⟨R, H, f, s⟩ := by
  induction events with
  | nil => intro sg R H f s _ _; rfl
  | cons e rest ih =>
      intro sg R H f s hR hH
      simp only [List.foldl_cons] at hR hH ⊢
      have habs : stepEvent env now completed ints ⟨R, H, f, s⟩ e = ⟨R, H, f, s⟩ := by
        apply stepEvent_absorb env now completed ints sg e
        · intro k hk
          exact hR k ((foldEvents_mono env now completed ints rest _).1 k hk)
        · intro k hk
          exact hH k ((foldEvents_mono env now completed ints rest _).2 k hk)
      rw [habs]
      exact ih (stepEvent env now completed ints sg e) R H f s hR hH

theorem foldEvents_fresh (env : JsEnv) (now : Int) (completed : List String)
    (ints : List Int) (H0 : List String) (R0 : List (String × ReminderEntry))
    (events : List Event) :
    ∀ sg : SchedState,
      (∀ k, histHas H0 k = true → histHas sg.reminderHistory k = true) →
      (∀ k, remHas R0 k = true → remHas sg.reminders k = true) →
      (∀ p ∈ (events.foldl (stepEvent env now completed ints) sg).toFireNow,
          p ∈ sg.toFireNow ∨ histHas H0 p.1 = false) ∧
      (∀ q ∈ (events.foldl (stepEvent env now completed ints) sg).toScheduleFuture,
          q ∈ sg.toScheduleFuture ∨ remHas R0 q.1 = false) := by
  induction events with
  | nil => exact fun sg _ _ => ⟨fun p hp => Or.inl hp, fun q hq => Or.inl hq⟩
  | cons e rest ih =>
      intro sg hbH hbR
      simp only [List.foldl_cons]
      obtain ⟨ih1, ih2⟩ := ih (stepEvent env now completed ints sg e)
        (fun k h => (stepEvent_mono env now completed ints sg e).2 k (hbH k h))
        (fun k h => (stepEvent_mono env now completed ints sg e).1 k (hbR k h))
      constructor
      · intro p hp
        rcases ih1 p hp with h | h
        · rcases (stepEvent_fresh env now completed ints H0 R0 sg e hbH hbR).1 p h with h2 | h2
          · exact Or.inl h2
          · exact Or.inr h2
        · exact Or.inr h
      · intro q hq
        rcases ih2 q hq with h | h
        · rcases (stepEvent_fresh env now completed ints H0 R0 sg e hbH hbR).2 q h with h2 | h2
          · exact Or.inl h2
          · exact Or.inr h2
        · exact Or.inr h

/-- C1: reminder dedup.  For every record list, completed set, settings,
persisted state and time `now`: (i) running the reminder computation twice
in a row — the second run receiving the reminders map and reminder history
produced by the first run, with no other state change — yields empty
`toFireNow` and `toScheduleFuture` on the second run; and within a single
run, (ii) a reminder id already in the incoming history is never fired and
(iii) an id already in the incoming reminders map is never scheduled. -/
theorem computeReminders_dedup (env : JsEnv) (events : List Event)
    (completed : List String) (settings : ReminderSettings)
    (r0 : List (String × ReminderEntry)) (h0 : List String) (now : Int) :
    (computeReminders env events completed settings
        (computeReminders env events completed settings r0 h0 now).reminders
        (computeReminders env events completed settings r0 h0 now).reminderHistory
        now).toFireNow = [] ∧
    (computeReminders env events completed settings
        (computeReminders env events completed settings r0 h0 now).reminders
        (computeReminders env events completed settings r0 h0 now).reminderHistory
        now).toScheduleFuture = [] ∧
    (∀ p ∈ (computeReminders env events completed settings r0 h0 now).toFireNow,
        histHas h0 p.1 = false) ∧
    (∀ q ∈ (computeReminders env events completed settings r0 h0 now).toScheduleFuture,
        remHas r0 q.1 = false) := by
  by_cases hen : (!settings.enabled) = true
  · refine ⟨by simp [computeReminders, hen], by simp [computeReminders, hen], ?_, ?_⟩
    · intro p hp
      simp [computeReminders, hen] at hp
    · intro q hq
      simp [computeReminders, hen] at hq
  · have hmain : computeReminders env events completed settings
        (computeReminders env events completed settings r0 h0 now).reminders
        (computeReminders env events completed settings r0 h0 now).reminderHistory
        now =
        ⟨(computeReminders env events completed settings r0 h0 now).reminders,
         (computeReminders env events completed settings r0 h0 now).reminderHistory,
         [], []⟩ := by
      simp only [computeReminders, if_neg hen]
      exact foldEvents_absorb env now completed (effectiveIntervals settings) events
        ⟨r0, h0, [], []⟩ _ _ [] [] (fun k h => h) (fun k h => h)
    refine ⟨by rw [hmain], by rw [hmain], ?_, ?_⟩
    · intro p hp
      simp only [computeReminders, if_neg hen] at hp
      rcases (foldEvents_fresh env now completed (effectiveIntervals settings) h0 r0 events
          ⟨r0, h0, [], []⟩ (fun k h => h) (fun k h => h)).1 p hp with h | h
      · exact absurd h (List.not_mem_nil p)
      · exact h
    · intro q hq
      simp only [computeReminders, if_neg hen] at hq
      rcases (foldEvents_fresh env now completed (effectiveIntervals settings) h0 r0 events
          ⟨r0, h0, [], []⟩ (fun k h => h) (fun k h => h)).2 q hq with h | h
      · exact absurd h (List.not_mem_nil q)
      · exact h

/-- Witness for `computeReminders_dedup`, at the C6 scenario with a
pre-existing unrelated history entry: the fired 24-hour reminder's id is not
in the incoming history, and the second run fires nothing. -/
theorem computeReminders_dedup_witness :
    histHas ["reminder_other"] "reminder_a1_24h" = false ∧
    (computeReminders envUTC [essayEvent] [] ⟨true, some [24, 16, 4, 1]⟩
        (computeReminders envUTC [essayEvent] [] ⟨true, some [24, 16, 4, 1]⟩
          [] ["reminder_other"] nowC6).reminders
        (computeReminders envUTC [essayEvent] [] ⟨true, some [24, 16, 4, 1]⟩
          [] ["reminder_other"] nowC6).reminderHistory
        nowC6).toFireNow = [] := by
  constructor
  · exact (computeReminders_dedup envUTC [essayEvent] [] ⟨true, some [24, 16, 4, 1]⟩
      [] ["reminder_other"] nowC6).2.2.1 ("reminder_a1_24h", essayEntry 24) (by decide)
  · exact (computeReminders_dedup envUTC [essayEvent] [] ⟨true, some [24, 16, 4, 1]⟩
      [] ["reminder_other"] nowC6).1

end TrinTasks